import Mathlib

/-!
Shallow embedding of the `setlike` crate (`src/lib.rs`): a `Setlike` trait
over four concrete containers (hash set, ordered/tree set, bit set, and a
feature-gated bloom filter).  Every trait method is a one-line forward to the
backing collection, so each container is modelled by the logical contents of
that collection, and each mutating method is embedded as a function from the
container state to the pair (new state, returned value).  Methods taking
`&self` in Rust cannot mutate the receiver; they are embedded as pure
functions of the state.  The bloom-filter adapter's `len`, `remove` and
`with_capacity` bodies are `unimplemented!(..)`, i.e. they diverge with a
runtime panic; a panic is modelled by the `panicked` constructor of
`PanicOr`, which is an unwinding event, not a value the caller branches on.
-/

namespace SetlikeModel

/-- Outcome of running a Rust method body that may execute `unimplemented!`:
either a normal return or a runtime panic carrying the panic message. -/
inductive PanicOr (α : Type) where
  | ok : α → PanicOr α
  | panicked : String → PanicOr α
deriving DecidableEq

/-- `true` iff the outcome is a runtime panic. -/
def PanicOr.isPanic {α : Type} : PanicOr α → Bool
  | .ok _ => false
  | .panicked _ => true

/-! ### Hash-backed container

Model of `std::collections::HashSet<T, S>` (an external collaborator, spec
§6, assumed to satisfy exact-set semantics): its logical contents is a finite
collection of distinct elements, represented as a duplicate-free list.  The
hasher and the bucket allocation have no observable effect on the contents,
so they are not part of the state. -/
structure HashSet (T : Type) where
  elems : List T
  nodup : elems.Nodup

variable {T : Type}

/-- The empty hash set. -/
def HashSet.empty : HashSet T := ⟨[], List.nodup_nil⟩

/-- `fn contains(&self, el: &T) -> bool { self.contains(el) }` -/
def HashSet.contains [DecidableEq T] (s : HashSet T) (el : T) : Bool :=
  decide (el ∈ s.elems)

/-- `fn insert(&mut self, el: T) -> bool { self.insert(el) }`:
std's insert adds `el` if absent and returns whether it was newly added. -/
def HashSet.insert [DecidableEq T] (s : HashSet T) (el : T) : HashSet T × Bool :=
  if h : el ∈ s.elems then (s, false)
  else (⟨el :: s.elems, List.nodup_cons.mpr ⟨h, s.nodup⟩⟩, true)

/-- `fn remove(&mut self, el: &T) -> bool { self.remove(el) }`:
std's remove deletes `el` if present and returns whether it was present. -/
def HashSet.remove [DecidableEq T] (s : HashSet T) (el : T) : HashSet T × Bool :=
  if el ∈ s.elems then (⟨s.elems.erase el, List.Nodup.sublist (s.elems.erase_sublist el) s.nodup⟩, true)
  else (s, false)

/-- `fn len(&self) -> usize { self.len() }` -/
def HashSet.len (s : HashSet T) : Nat := s.elems.length

/-- `fn with_capacity(k) -> Self { HashSet::with_capacity_and_hasher(k, S::default()) }`:
pre-sizes bucket storage, which has no observable effect on the logical
contents; the result is empty. -/
def HashSet.with_capacity (_k : Nat) : HashSet T := HashSet.empty

/-! ### Ordered/tree-backed container

Model of `std::collections::BTreeSet<T>` (external collaborator): a sorted,
duplicate-free list of elements. -/
structure BTreeSet (T : Type) [LinearOrder T] where
  elems : List T
  sorted : elems.Sorted (· ≤ ·)
  nodup : elems.Nodup

section Ordered

variable [LinearOrder T]

/-- `BTreeSet::new()`. -/
def BTreeSet.empty : BTreeSet T := ⟨[], List.sorted_nil, List.nodup_nil⟩

/-- `fn contains(&self, el: &T) -> bool { self.contains(el) }` -/
def BTreeSet.contains (s : BTreeSet T) (el : T) : Bool :=
  decide (el ∈ s.elems)

/-- `fn insert(&mut self, el: T) -> bool { self.insert(el) }`:
adds `el` at its ordered position if absent, returns whether newly added. -/
def BTreeSet.insert (s : BTreeSet T) (el : T) : BTreeSet T × Bool :=
  if h : el ∈ s.elems then (s, false)
  else (⟨s.elems.orderedInsert (· ≤ ·) el,
         List.Sorted.orderedInsert el s.elems s.sorted,
         (List.perm_orderedInsert (· ≤ ·) el s.elems).symm.nodup
           (List.nodup_cons.mpr ⟨h, s.nodup⟩)⟩, true)

/-- `fn remove(&mut self, el: &T) -> bool { self.remove(el) }` -/
def BTreeSet.remove (s : BTreeSet T) (el : T) : BTreeSet T × Bool :=
  if el ∈ s.elems then
    (⟨s.elems.erase el,
      List.Pairwise.sublist (s.elems.erase_sublist el) s.sorted,
      List.Nodup.sublist (s.elems.erase_sublist el) s.nodup⟩, true)
  else (s, false)

/-- `fn len(&self) -> usize { self.len() }` -/
def BTreeSet.len (s : BTreeSet T) : Nat := s.elems.length

/-- `fn with_capacity(_k) -> Self { Self::new() }`: the hint is ignored. -/
def BTreeSet.with_capacity (_k : Nat) : BTreeSet T := BTreeSet.empty

end Ordered

/-! ### Bit-vector container

Model of `bit_set::BitSet` (external collaborator): a set of `usize` indices
backed by a bit vector, represented as the list of bit values; an index is a
member iff its bit is `true`, and indices beyond the vector's length are
absent.  `with_capacity k` allocates `k` bits, all clear. -/
structure BitSet where
  bits : List Bool

/-- Grow the vector so index `i` exists (new bits clear), then write `b` at
index `i`. -/
def setBit : List Bool → Nat → Bool → List Bool
  | [], 0, b => [b]
  | [], i + 1, b => false :: setBit [] i b
  | _ :: xs, 0, b => b :: xs
  | x :: xs, i + 1, b => x :: setBit xs i b

/-- `fn contains(&self, i: &usize) -> bool { self.contains(*i) }` -/
def BitSet.contains (s : BitSet) (i : Nat) : Bool :=
  s.bits.getD i false

/-- `fn insert(&mut self, i: usize) -> bool { self.insert(i) }`:
sets bit `i` (growing the vector as needed), returns whether it was clear. -/
def BitSet.insert (s : BitSet) (i : Nat) : BitSet × Bool :=
  if s.contains i then (s, false)
  else (⟨setBit s.bits i true⟩, true)

/-- `fn remove(&mut self, i: &usize) -> bool { self.remove(*i) }`:
clears bit `i`, returns whether it was set. -/
def BitSet.remove (s : BitSet) (i : Nat) : BitSet × Bool :=
  if s.contains i then (⟨s.bits.set i false⟩, true)
  else (s, false)

/-- `fn len(&self) -> usize { self.len() }`: the population count. -/
def BitSet.len (s : BitSet) : Nat := s.bits.count true

/-- `fn with_capacity(k) -> Self { BitSet::with_capacity(k) }`:
an empty bit set with `k` bits pre-allocated, all clear. -/
def BitSet.with_capacity (k : Nat) : BitSet := ⟨List.replicate k false⟩

/-! ### Probabilistic-filter container

The adapter for `bloom::BloomFilter` delegates `insert`/`contains` to the
external `bloom` crate and leaves `len`, `remove` and `with_capacity` as
`unimplemented!(..)` panics. -/

/-- Modelled from the spec: the external `bloom` crate's filter state (spec
§3, §4.5 — not part of this repository's sources).  A family of hash
functions over the element type together with the set of bit indices that
have been set; `contains` may report false positives but never false
negatives. -/
structure BloomFilter where
  hashes : List (Nat → Nat)
  bits : Finset Nat

/-- Modelled from the spec: `bloom::ASMS::contains` — an element is reported
present iff every one of its hash values has its bit set. -/
def BloomFilter.contains (f : BloomFilter) (u : Nat) : Bool :=
  f.hashes.all (fun h => decide (h u ∈ f.bits))

/-- Modelled from the spec: `bloom::ASMS::insert` — sets the bits of all hash
values of `u`; returns whether the filter changed (i.e. `u` was not already
reported present). -/
def BloomFilter.insert (f : BloomFilter) (u : Nat) : BloomFilter × Bool :=
  ({ f with bits := f.bits ∪ (f.hashes.map (fun h => h u)).toFinset },
   !f.contains u)

/-- `fn len(&self) -> usize { unimplemented!("bloom filters lack a clear concept of length") }` -/
def BloomFilter.len (_f : BloomFilter) : PanicOr Nat :=
  .panicked "bloom filters lack a clear concept of length"

/-- `fn remove(&mut self, _el: &T) -> bool { unimplemented!("if removal is desired, use a cuckoo filter") }` -/
def BloomFilter.remove (_f : BloomFilter) (_el : Nat) : PanicOr (BloomFilter × Bool) :=
  .panicked "if removal is desired, use a cuckoo filter"

/-- `fn with_capacity(_k) -> Self { unimplemented!("use a bloom-specific constructor") }` -/
def BloomFilter.with_capacity (_k : Nat) : PanicOr BloomFilter :=
  .panicked "use a bloom-specific constructor"

/-! ### Calls through a shared reference

A call `s.contains(&u)` or `s.len()` goes through `&self`: the borrow rules
make the receiver available unchanged afterwards.  The call is embedded as
returning the receiver state together with the result. -/

/-- The caller-visible effect of `s.contains(&el)` on a hash set. -/
def HashSet.containsOp [DecidableEq T] (s : HashSet T) (el : T) : HashSet T × Bool :=
  (s, s.contains el)

/-- The caller-visible effect of `s.len()` on a hash set. -/
def HashSet.lenOp (s : HashSet T) : HashSet T × Nat :=
  (s, s.len)

section Ordered

variable [LinearOrder T]

/-- The caller-visible effect of `s.contains(&el)` on a tree set. -/
def BTreeSet.containsOp (s : BTreeSet T) (el : T) : BTreeSet T × Bool :=
  (s, s.contains el)

/-- The caller-visible effect of `s.len()` on a tree set. -/
def BTreeSet.lenOp (s : BTreeSet T) : BTreeSet T × Nat :=
  (s, s.len)

end Ordered

/-- The caller-visible effect of `s.contains(&i)` on a bit set. -/
def BitSet.containsOp (s : BitSet) (i : Nat) : BitSet × Bool :=
  (s, s.contains i)

/-- The caller-visible effect of `s.len()` on a bit set. -/
def BitSet.lenOp (s : BitSet) : BitSet × Nat :=
  (s, s.len)

/-- The caller-visible effect of `f.contains(&u)` on a bloom filter. -/
def BloomFilter.containsOp (f : BloomFilter) (u : Nat) : BloomFilter × Bool :=
  (f, f.contains u)

/-! ### Basic lemmas about the hash-set model -/

theorem HashSet.contains_insert_hs [DecidableEq T] (s : HashSet T) (u : T) :
    ((s.insert u).1).contains u = true := by
  unfold HashSet.insert HashSet.contains
  split <;> simp_all

theorem HashSet.insert_of_mem_hs [DecidableEq T] {s : HashSet T} {u : T}
    (h : u ∈ s.elems) : s.insert u = (s, false) := by
  simp [HashSet.insert, h]

theorem HashSet.insert_of_not_mem_hs [DecidableEq T] {s : HashSet T} {u : T}
    (h : u ∉ s.elems) :
    (s.insert u).2 = true ∧ ((s.insert u).1).elems = u :: s.elems := by
  simp [HashSet.insert, h]

theorem HashSet.remove_of_mem_hs [DecidableEq T] {s : HashSet T} {u : T}
    (h : u ∈ s.elems) :
    (s.remove u).2 = true ∧ ((s.remove u).1).elems = s.elems.erase u := by
  simp [HashSet.remove, h]

theorem HashSet.remove_of_not_mem_hs [DecidableEq T] {s : HashSet T} {u : T}
    (h : u ∉ s.elems) : s.remove u = (s, false) := by
  simp [HashSet.remove, h]

theorem HashSet.contains_remove_hs [DecidableEq T] (s : HashSet T) (u : T) :
    ((s.remove u).1).contains u = false := by
  unfold HashSet.remove HashSet.contains
  split
  · simp [(s.nodup).mem_erase_iff]
  · simp_all

/-! ### Basic lemmas about the tree-set model -/

section Ordered

variable [LinearOrder T]

theorem BTreeSet.contains_insert_bt (s : BTreeSet T) (u : T) :
    ((s.insert u).1).contains u = true := by
  unfold BTreeSet.insert BTreeSet.contains
  split <;> simp_all [List.mem_orderedInsert]

theorem BTreeSet.insert_of_mem_bt {s : BTreeSet T} {u : T}
    (h : u ∈ s.elems) : s.insert u = (s, false) := by
  simp [BTreeSet.insert, h]

theorem BTreeSet.insert_of_not_mem_bt {s : BTreeSet T} {u : T}
    (h : u ∉ s.elems) :
    (s.insert u).2 = true ∧
      ((s.insert u).1).elems = s.elems.orderedInsert (· ≤ ·) u := by
  simp [BTreeSet.insert, h]

theorem BTreeSet.remove_of_mem_bt {s : BTreeSet T} {u : T}
    (h : u ∈ s.elems) :
    (s.remove u).2 = true ∧ ((s.remove u).1).elems = s.elems.erase u := by
  simp [BTreeSet.remove, h]

theorem BTreeSet.remove_of_not_mem_bt {s : BTreeSet T} {u : T}
    (h : u ∉ s.elems) : s.remove u = (s, false) := by
  simp [BTreeSet.remove, h]

theorem BTreeSet.contains_remove_bt (s : BTreeSet T) (u : T) :
    ((s.remove u).1).contains u = false := by
  unfold BTreeSet.remove BTreeSet.contains
  split
  · simp [(s.nodup).mem_erase_iff]
  · simp_all

end Ordered

/-! ### Basic lemmas about the bit-set model -/

theorem getD_setBit_self (i : Nat) (b : Bool) :
    ∀ l : List Bool, (setBit l i b).getD i false = b := by
  induction i with
  | zero => intro l; cases l <;> simp [setBit]
  | succ i ih =>
    intro l
    cases l <;> simp only [setBit, List.getD_cons_succ] <;> exact ih _

theorem lt_length_setBit (i : Nat) (b : Bool) :
    ∀ l : List Bool, i < (setBit l i b).length := by
  induction i with
  | zero => intro l; cases l <;> simp [setBit]
  | succ i ih => intro l; cases l <;> simpa [setBit] using ih _

theorem count_setBit_true (i : Nat) :
    ∀ l : List Bool, l.getD i false = false →
      (setBit l i true).count true = l.count true + 1 := by
  induction i with
  | zero =>
    intro l h
    cases l with
    | nil => simp [setBit]
    | cons x xs =>
      simp only [List.getD_cons_zero] at h
      simp [setBit, h]
  | succ i ih =>
    intro l h
    cases l with
    | nil => simp [setBit, ih [] (by simp)]
    | cons x xs =>
      simp only [List.getD_cons_succ] at h
      cases x <;> simp [setBit, ih xs h]

theorem BitSet.lt_of_contains {s : BitSet} {i : Nat}
    (h : s.contains i = true) : i < s.bits.length := by
  by_contra h'
  rw [BitSet.contains, List.getD_eq_getElem?_getD,
      List.getElem?_eq_none (by omega)] at h
  simp at h

theorem BitSet.contains_insert_bs (s : BitSet) (i : Nat) :
    ((s.insert i).1).contains i = true := by
  unfold BitSet.insert
  split
  · assumption
  · exact getD_setBit_self i true s.bits

theorem BitSet.contains_remove_bs (s : BitSet) (i : Nat) :
    ((s.remove i).1).contains i = false := by
  unfold BitSet.remove
  split
  · rename_i h
    have hlt : i < s.bits.length := BitSet.lt_of_contains h
    simp [BitSet.contains, List.getElem?_set_self hlt]
  · simp_all

theorem getD_replicate_false (k j : Nat) :
    (List.replicate k false).getD j false = false := by
  rw [List.getD_eq_getElem?_getD, List.getElem?_replicate]
  split <;> simp

/-! ### Basic lemmas about the bloom-filter model -/

theorem BloomFilter.contains_insert_bf (f : BloomFilter) (u : Nat) :
    ((f.insert u).1).contains u = true := by
  simp only [BloomFilter.insert, BloomFilter.contains, List.all_eq_true]
  intro g hg
  simp only [decide_eq_true_eq, Finset.mem_union, List.mem_toFinset,
    List.mem_map]
  exact Or.inr ⟨g, hg, rfl⟩

theorem BloomFilter.insert_of_contains {f : BloomFilter} {u : Nat}
    (h : f.contains u = true) : f.insert u = (f, false) := by
  have hall : ∀ g ∈ f.hashes, g u ∈ f.bits := by
    simpa [BloomFilter.contains, List.all_eq_true] using h
  have hsub : (f.hashes.map (fun g => g u)).toFinset ⊆ f.bits := by
    intro x hx
    simp only [List.mem_toFinset, List.mem_map] at hx
    obtain ⟨g, hg, rfl⟩ := hx
    exact hall g hg
  unfold BloomFilter.insert
  rw [h, Finset.union_eq_left.mpr hsub]
  rfl

/-! ### Claims -/

/-- Claim C1, as the spec states it, is false on the code: the bloom-filter
adapter's `remove` and `len` bodies are `unimplemented!(..)`, so at a
concrete filter both calls end in a runtime panic rather than returning an
`UnsupportedOperation` error variant the caller could branch on. -/
theorem claim_C1_counterexample :
    (BloomFilter.remove ⟨[fun n => n], ∅⟩ 0).isPanic = true ∧
      (BloomFilter.len ⟨[fun n => n], ∅⟩).isPanic = true :=
  ⟨rfl, rfl⟩

/-- Claim C1 (amended): for the probabilistic-filter container, every call to
`remove` or `len` fails with a runtime panic carrying the `unimplemented!`
message; no error value is returned. -/
theorem claim_C1_bloom_remove_len_panic :
    ∀ (f : BloomFilter) (u : Nat),
      f.remove u = PanicOr.panicked "if removal is desired, use a cuckoo filter" ∧
        f.len = PanicOr.panicked "bloom filters lack a clear concept of length" :=
  fun _ _ => ⟨rfl, rfl⟩

/-- Claim C1 witness: the amended claim evaluated at a concrete filter and
element. -/
theorem claim_C1_bloom_remove_len_panic_witness :
    BloomFilter.remove ⟨[fun n => n], ∅⟩ 0 =
        PanicOr.panicked "if removal is desired, use a cuckoo filter" ∧
      BloomFilter.len ⟨[fun n => n], ∅⟩ =
        PanicOr.panicked "bloom filters lack a clear concept of length" :=
  claim_C1_bloom_remove_len_panic ⟨[fun n => n], ∅⟩ 0

/-- Claim C2, as the spec states it, is false on the code: the probabilistic
filter's `with_capacity` is `unimplemented!("use a bloom-specific constructor")`,
so at capacity hint 100 construction panics instead of returning an
equivalent empty container. -/
theorem claim_C2_counterexample :
    (BloomFilter.with_capacity 100).isPanic = true :=
  rfl

/-- Claim C2 (amended): for every capacity hint `k`, the hash, ordered and
bit-vector constructors never fail and return an empty container (zero
length, no members — the ordered container ignores the hint entirely),
while the probabilistic filter's capacity-hinted constructor panics as
unsupported. -/
theorem claim_C2_with_capacity :
    (∀ (T : Type) [DecidableEq T] (k : Nat),
        (HashSet.with_capacity k : HashSet T).len = 0 ∧
          ∀ u : T, (HashSet.with_capacity k : HashSet T).contains u = false) ∧
    (∀ (T : Type) [LinearOrder T] (k : Nat),
        (BTreeSet.with_capacity k : BTreeSet T) = BTreeSet.empty ∧
          (BTreeSet.with_capacity k : BTreeSet T).len = 0 ∧
          ∀ u : T, (BTreeSet.with_capacity k : BTreeSet T).contains u = false) ∧
    (∀ k : Nat, (BitSet.with_capacity k).len = 0 ∧
        ∀ i : Nat, (BitSet.with_capacity k).contains i = false) ∧
    (∀ k : Nat, (BloomFilter.with_capacity k).isPanic = true) := by
  refine ⟨?_, ?_, ?_, ?_⟩
  · intro T _ k
    exact ⟨rfl, fun u => by simp [HashSet.with_capacity, HashSet.empty, HashSet.contains]⟩
  · intro T _ k
    exact ⟨rfl, rfl,
      fun u => by simp [BTreeSet.with_capacity, BTreeSet.empty, BTreeSet.contains]⟩
  · intro k
    refine ⟨by simp [BitSet.len, BitSet.with_capacity, List.count_replicate], ?_⟩
    intro i
    exact getD_replicate_false k i
  · intro k
    rfl

/-- Claim C2 witness: the amended claim evaluated at capacity hint 100 and
element 3. -/
theorem claim_C2_with_capacity_witness :
    (HashSet.with_capacity 100 : HashSet Nat).len = 0 ∧
      (HashSet.with_capacity 100 : HashSet Nat).contains 3 = false ∧
      (BTreeSet.with_capacity 100 : BTreeSet Nat).len = 0 ∧
      (BitSet.with_capacity 100).len = 0 ∧
      (BitSet.with_capacity 100).contains 3 = false ∧
      (BloomFilter.with_capacity 100).isPanic = true :=
  ⟨(claim_C2_with_capacity.1 Nat 100).1,
   (claim_C2_with_capacity.1 Nat 100).2 3,
   (claim_C2_with_capacity.2.1 Nat 100).2.1,
   (claim_C2_with_capacity.2.2.1 100).1,
   (claim_C2_with_capacity.2.2.1 100).2 3,
   claim_C2_with_capacity.2.2.2 100⟩

/-- Claim C3: for each conforming container (hash set, ordered set, bit set,
probabilistic filter) and every element `u`, immediately after `insert u`
the query `contains u` returns `true`. -/
theorem claim_C3_contains_after_insert :
    (∀ (T : Type) [DecidableEq T] (s : HashSet T) (u : T),
        ((s.insert u).1).contains u = true) ∧
    (∀ (T : Type) [LinearOrder T] (s : BTreeSet T) (u : T),
        ((s.insert u).1).contains u = true) ∧
    (∀ (s : BitSet) (i : Nat), ((s.insert i).1).contains i = true) ∧
    (∀ (f : BloomFilter) (u : Nat), ((f.insert u).1).contains u = true) :=
  ⟨fun _ _ s u => HashSet.contains_insert_hs s u,
   fun _ _ s u => BTreeSet.contains_insert_bt s u,
   fun s i => BitSet.contains_insert_bs s i,
   fun f u => BloomFilter.contains_insert_bf f u⟩

/-- Claim C3 witness: the claim evaluated at concrete containers and
elements. -/
theorem claim_C3_contains_after_insert_witness :
    (((HashSet.empty : HashSet Nat).insert 5).1).contains 5 = true ∧
      (((BTreeSet.empty : BTreeSet Nat).insert 5).1).contains 5 = true ∧
      (((BitSet.with_capacity 0).insert 3).1).contains 3 = true ∧
      ((BloomFilter.insert ⟨[fun n => n], ∅⟩ 7).1).contains 7 = true :=
  ⟨claim_C3_contains_after_insert.1 Nat HashSet.empty 5,
   claim_C3_contains_after_insert.2.1 Nat BTreeSet.empty 5,
   claim_C3_contains_after_insert.2.2.1 (BitSet.with_capacity 0) 3,
   claim_C3_contains_after_insert.2.2.2 ⟨[fun n => n], ∅⟩ 7⟩

/-- Claim C4: for each container supporting removal (hash set, bit set,
ordered set) and every element `u`, after `insert u` an immediate `remove u`
returns `true` and leaves `contains u` false, and a second `remove u`
returns `false`. -/
theorem claim_C4_insert_remove :
    (∀ (T : Type) [DecidableEq T] (s : HashSet T) (u : T),
        (((s.insert u).1).remove u).2 = true ∧
          ((((s.insert u).1).remove u).1).contains u = false ∧
          (((((s.insert u).1).remove u).1).remove u).2 = false) ∧
    (∀ (T : Type) [LinearOrder T] (s : BTreeSet T) (u : T),
        (((s.insert u).1).remove u).2 = true ∧
          ((((s.insert u).1).remove u).1).contains u = false ∧
          (((((s.insert u).1).remove u).1).remove u).2 = false) ∧
    (∀ (s : BitSet) (i : Nat),
        (((s.insert i).1).remove i).2 = true ∧
          ((((s.insert i).1).remove i).1).contains i = false ∧
          (((((s.insert i).1).remove i).1).remove i).2 = false) := by
  refine ⟨?_, ?_, ?_⟩
  · intro T _ s u
    have hm : u ∈ ((s.insert u).1).elems := by
      simpa [HashSet.contains] using HashSet.contains_insert_hs s u
    have h3 : ((((s.insert u).1).remove u).1).contains u = false :=
      HashSet.contains_remove_hs _ u
    have hm3 : u ∉ ((((s.insert u).1).remove u).1).elems := by
      simpa [HashSet.contains] using h3
    refine ⟨(HashSet.remove_of_mem_hs hm).1, h3, ?_⟩
    rw [HashSet.remove_of_not_mem_hs hm3]
  · intro T _ s u
    have hm : u ∈ ((s.insert u).1).elems := by
      simpa [BTreeSet.contains] using BTreeSet.contains_insert_bt s u
    have h3 : ((((s.insert u).1).remove u).1).contains u = false :=
      BTreeSet.contains_remove_bt _ u
    have hm3 : u ∉ ((((s.insert u).1).remove u).1).elems := by
      simpa [BTreeSet.contains] using h3
    refine ⟨(BTreeSet.remove_of_mem_bt hm).1, h3, ?_⟩
    rw [BTreeSet.remove_of_not_mem_bt hm3]
  · intro s i
    have h1 : ((s.insert i).1).contains i = true := BitSet.contains_insert_bs s i
    have h3 : ((((s.insert i).1).remove i).1).contains i = false :=
      BitSet.contains_remove_bs _ i
    refine ⟨by simp [BitSet.remove, h1], h3, ?_⟩
    generalize hx : (((s.insert i).1).remove i).1 = x at h3
    simp [BitSet.remove, h3]

/-- Claim C4 witness: the claim evaluated at concrete containers and
elements. -/
theorem claim_C4_insert_remove_witness :
    ((((HashSet.empty : HashSet Nat).insert 5).1).remove 5).2 = true ∧
      (((((BTreeSet.empty : BTreeSet Nat).insert 5).1).remove 5).1).contains 5 = false ∧
      ((((((BitSet.with_capacity 0).insert 3).1).remove 3).1).remove 3).2 = false :=
  ⟨(claim_C4_insert_remove.1 Nat HashSet.empty 5).1,
   (claim_C4_insert_remove.2.1 Nat BTreeSet.empty 5).2.1,
   (claim_C4_insert_remove.2.2 (BitSet.with_capacity 0) 3).2.2⟩

/-- Claim C5: inserting an element that is already reported present returns
`false` and leaves the container (and hence its length) unchanged, for the
hash set, ordered set, bit set, and probabilistic filter. -/
theorem claim_C5_insert_present :
    (∀ (T : Type) [DecidableEq T] (s : HashSet T) (u : T),
        s.contains u = true →
          s.insert u = (s, false) ∧ ((s.insert u).1).len = s.len) ∧
    (∀ (T : Type) [LinearOrder T] (s : BTreeSet T) (u : T),
        s.contains u = true →
          s.insert u = (s, false) ∧ ((s.insert u).1).len = s.len) ∧
    (∀ (s : BitSet) (i : Nat),
        s.contains i = true →
          s.insert i = (s, false) ∧ ((s.insert i).1).len = s.len) ∧
    (∀ (f : BloomFilter) (u : Nat),
        f.contains u = true → f.insert u = (f, false)) := by
  refine ⟨?_, ?_, ?_, ?_⟩
  · intro T _ s u h
    have hm : u ∈ s.elems := by simpa [HashSet.contains] using h
    exact ⟨HashSet.insert_of_mem_hs hm, by rw [HashSet.insert_of_mem_hs hm]⟩
  · intro T _ s u h
    have hm : u ∈ s.elems := by simpa [BTreeSet.contains] using h
    exact ⟨BTreeSet.insert_of_mem_bt hm, by rw [BTreeSet.insert_of_mem_bt hm]⟩
  · intro s i h
    have he : s.insert i = (s, false) := by simp [BitSet.insert, h]
    exact ⟨he, by rw [he]⟩
  · intro f u h
    exact BloomFilter.insert_of_contains h

/-- Claim C5 witness: the claim evaluated at concrete one-element containers,
discharging the presence hypothesis by computation. -/
theorem claim_C5_insert_present_witness :
    ((((HashSet.empty : HashSet Nat).insert 5).1).contains 5 = true ∧
        (((HashSet.empty : HashSet Nat).insert 5).1).insert 5 =
          (((HashSet.empty : HashSet Nat).insert 5).1, false)) ∧
      ((((BTreeSet.empty : BTreeSet Nat).insert 5).1).contains 5 = true ∧
        ((((BTreeSet.empty : BTreeSet Nat).insert 5).1).insert 5).1.len =
          (((BTreeSet.empty : BTreeSet Nat).insert 5).1).len) ∧
      ((((BitSet.with_capacity 0).insert 3).1).contains 3 = true ∧
        (((BitSet.with_capacity 0).insert 3).1).insert 3 =
          ((((BitSet.with_capacity 0).insert 3).1), false)) ∧
      ((BloomFilter.contains ⟨[fun n => n], {7}⟩ 7 = true) ∧
        BloomFilter.insert ⟨[fun n => n], {7}⟩ 7 = (⟨[fun n => n], {7}⟩, false)) :=
  ⟨⟨by decide,
    (claim_C5_insert_present.1 Nat ((HashSet.empty : HashSet Nat).insert 5).1 5
      (by decide)).1⟩,
   ⟨by decide,
    (claim_C5_insert_present.2.1 Nat ((BTreeSet.empty : BTreeSet Nat).insert 5).1 5
      (by decide)).2⟩,
   ⟨by decide,
    (claim_C5_insert_present.2.2.1 ((BitSet.with_capacity 0).insert 3).1 3
      (by decide)).1⟩,
   ⟨by decide,
    claim_C5_insert_present.2.2.2 ⟨[fun n => n], {7}⟩ 7 (by decide)⟩⟩

/-- Claim C6: for the containers supporting `len` (hash set, bit set, ordered
set), inserting an element not currently present increases `len` by exactly
one. -/
theorem claim_C6_len_increments :
    (∀ (T : Type) [DecidableEq T] (s : HashSet T) (u : T),
        s.contains u = false → ((s.insert u).1).len = s.len + 1) ∧
    (∀ (s : BitSet) (i : Nat),
        s.contains i = false → ((s.insert i).1).len = s.len + 1) ∧
    (∀ (T : Type) [LinearOrder T] (s : BTreeSet T) (u : T),
        s.contains u = false → ((s.insert u).1).len = s.len + 1) := by
  refine ⟨?_, ?_, ?_⟩
  · intro T _ s u h
    have hm : u ∉ s.elems := by simpa [HashSet.contains] using h
    rw [HashSet.len, (HashSet.insert_of_not_mem_hs hm).2]
    rfl
  · intro s i h
    rw [BitSet.insert]
    simp only [h, if_false, Bool.false_eq_true]
    exact count_setBit_true i s.bits h
  · intro T _ s u h
    have hm : u ∉ s.elems := by simpa [BTreeSet.contains] using h
    rw [BTreeSet.len, (BTreeSet.insert_of_not_mem_bt hm).2]
    exact List.orderedInsert_length (· ≤ ·) s.elems u

/-- Claim C6 witness: the claim evaluated at concrete containers,
discharging the absence hypothesis by computation. -/
theorem claim_C6_len_increments_witness :
    ((HashSet.empty : HashSet Nat).contains 5 = false ∧
        (((HashSet.empty : HashSet Nat).insert 5).1).len =
          (HashSet.empty : HashSet Nat).len + 1) ∧
      ((BitSet.with_capacity 100).contains 42 = false ∧
        (((BitSet.with_capacity 100).insert 42).1).len =
          (BitSet.with_capacity 100).len + 1) ∧
      ((BTreeSet.empty : BTreeSet Nat).contains 5 = false ∧
        (((BTreeSet.empty : BTreeSet Nat).insert 5).1).len =
          (BTreeSet.empty : BTreeSet Nat).len + 1) :=
  ⟨⟨by decide, claim_C6_len_increments.1 Nat HashSet.empty 5 (by decide)⟩,
   ⟨by decide, claim_C6_len_increments.2.1 (BitSet.with_capacity 100) 42 (by decide)⟩,
   ⟨by decide, claim_C6_len_increments.2.2 Nat BTreeSet.empty 5 (by decide)⟩⟩

/-- Claim C7: the hash-backed container with integer elements, starting
empty, satisfies the concrete scenario — `insert 5` returns `true` and the
length becomes 1; a second `insert 5` returns `false` with length still 1;
`remove 5` returns `true` and the length becomes 0; a second `remove 5`
returns `false`. -/
theorem claim_C7_hash_scenario :
    ((HashSet.empty : HashSet Nat).insert 5).2 = true ∧
      (((HashSet.empty : HashSet Nat).insert 5).1).len = 1 ∧
      ((((HashSet.empty : HashSet Nat).insert 5).1).insert 5).2 = false ∧
      (((((HashSet.empty : HashSet Nat).insert 5).1).insert 5).1).len = 1 ∧
      ((((((HashSet.empty : HashSet Nat).insert 5).1).insert 5).1).remove 5).2 = true ∧
      (((((((HashSet.empty : HashSet Nat).insert 5).1).insert 5).1).remove 5).1).len = 0 ∧
      ((((((((HashSet.empty : HashSet Nat).insert 5).1).insert 5).1).remove 5).1).remove 5).2 = false := by
  decide

/-- Claim C8: the bit-vector container built with capacity hint 100 accepts
`insert 42` (returning `true`), after which `contains 42` is `true` and
`contains 7` is `false`. -/
theorem claim_C8_bitset_scenario :
    ((BitSet.with_capacity 100).insert 42).2 = true ∧
      (((BitSet.with_capacity 100).insert 42).1).contains 42 = true ∧
      (((BitSet.with_capacity 100).insert 42).1).contains 7 = false := by
  decide

/-- Claim C9: for the hash-backed and ordered-backed containers, a `remove`
that returns `true` decreases `len` by exactly one, and a `remove` that
returns `false` leaves `len` unchanged. -/
theorem claim_C9_remove_len :
    (∀ (T : Type) [DecidableEq T] (s : HashSet T) (u : T),
        ((s.remove u).2 = true → ((s.remove u).1).len = s.len - 1) ∧
          ((s.remove u).2 = false → ((s.remove u).1).len = s.len)) ∧
    (∀ (T : Type) [LinearOrder T] (s : BTreeSet T) (u : T),
        ((s.remove u).2 = true → ((s.remove u).1).len = s.len - 1) ∧
          ((s.remove u).2 = false → ((s.remove u).1).len = s.len)) := by
  constructor
  · intro T _ s u
    by_cases hm : u ∈ s.elems
    · obtain ⟨h2, helems⟩ := HashSet.remove_of_mem_hs hm
      constructor
      · intro _
        have hlen := List.length_erase_add_one hm
        rw [HashSet.len, HashSet.len, helems]
        omega
      · intro hf
        rw [h2] at hf
        cases hf
    · rw [HashSet.remove_of_not_mem_hs hm]
      exact ⟨fun h => (nomatch h), fun _ => rfl⟩
  · intro T _ s u
    by_cases hm : u ∈ s.elems
    · obtain ⟨h2, helems⟩ := BTreeSet.remove_of_mem_bt hm
      constructor
      · intro _
        have hlen := List.length_erase_add_one hm
        rw [BTreeSet.len, BTreeSet.len, helems]
        omega
      · intro hf
        rw [h2] at hf
        cases hf
    · rw [BTreeSet.remove_of_not_mem_bt hm]
      exact ⟨fun h => (nomatch h), fun _ => rfl⟩

/-- Claim C9 witness: both branches evaluated at concrete containers, the
hypotheses discharged by computation. -/
theorem claim_C9_remove_len_witness :
    (((((HashSet.empty : HashSet Nat).insert 5).1).remove 5).2 = true ∧
        (((((HashSet.empty : HashSet Nat).insert 5).1).remove 5).1).len =
          (((HashSet.empty : HashSet Nat).insert 5).1).len - 1) ∧
      (((BTreeSet.empty : BTreeSet Nat).remove 5).2 = false ∧
        (((BTreeSet.empty : BTreeSet Nat).remove 5).1).len =
          (BTreeSet.empty : BTreeSet Nat).len) :=
  ⟨⟨by decide,
    (claim_C9_remove_len.1 Nat ((HashSet.empty : HashSet Nat).insert 5).1 5).1
      (by decide)⟩,
   ⟨by decide,
    (claim_C9_remove_len.2 Nat BTreeSet.empty 5).2 (by decide)⟩⟩

/-- Claim C10: `contains` and `len` go through a shared reference, so a call
leaves the container unchanged, and an immediate second call of the same
query returns the same result. -/
theorem claim_C10_pure_queries :
    (∀ (T : Type) [DecidableEq T] (s : HashSet T) (u : T),
        (s.containsOp u).1 = s ∧
          (((s.containsOp u).1).containsOp u).2 = (s.containsOp u).2) ∧
    (∀ (T : Type) (s : HashSet T),
        s.lenOp.1 = s ∧ ((s.lenOp.1).lenOp).2 = s.lenOp.2) ∧
    (∀ (T : Type) [LinearOrder T] (s : BTreeSet T) (u : T),
        (s.containsOp u).1 = s ∧
          (((s.containsOp u).1).containsOp u).2 = (s.containsOp u).2) ∧
    (∀ (T : Type) [LinearOrder T] (s : BTreeSet T),
        s.lenOp.1 = s ∧ ((s.lenOp.1).lenOp).2 = s.lenOp.2) ∧
    (∀ (s : BitSet) (i : Nat),
        (s.containsOp i).1 = s ∧
          (((s.containsOp i).1).containsOp i).2 = (s.containsOp i).2) ∧
    (∀ (s : BitSet), s.lenOp.1 = s ∧ ((s.lenOp.1).lenOp).2 = s.lenOp.2) ∧
    (∀ (f : BloomFilter) (u : Nat),
        (f.containsOp u).1 = f ∧
          (((f.containsOp u).1).containsOp u).2 = (f.containsOp u).2) :=
  ⟨fun _ _ _ _ => ⟨rfl, rfl⟩, fun _ _ => ⟨rfl, rfl⟩, fun _ _ _ _ => ⟨rfl, rfl⟩,
   fun _ _ _ => ⟨rfl, rfl⟩, fun _ _ => ⟨rfl, rfl⟩, fun _ => ⟨rfl, rfl⟩,
   fun _ _ => ⟨rfl, rfl⟩⟩

/-- Claim C10 witness: the claim evaluated at concrete containers. -/
theorem claim_C10_pure_queries_witness :
    ((((HashSet.empty : HashSet Nat).insert 5).1).containsOp 5).1 =
        ((HashSet.empty : HashSet Nat).insert 5).1 ∧
      ((BitSet.with_capacity 100).lenOp.1).lenOp.2 =
        (BitSet.with_capacity 100).lenOp.2 :=
  ⟨(claim_C10_pure_queries.1 Nat ((HashSet.empty : HashSet Nat).insert 5).1 5).1,
   (claim_C10_pure_queries.2.2.2.2.2.1 (BitSet.with_capacity 100)).2⟩

end SetlikeModel
